import Mathlib

/-!
Verification of the STM32 ADC v1 driver (`embassy-stm32/src/adc/v1.rs`).

The driver is embedded shallowly:

* `Regs` models the peripheral register block (only the fields the driver
  touches).  ISR status bits are write-1-to-clear (rc_w1), so a `modify`
  on ISR reads the current value and the write-back clears every bit that
  is 1 in the written value; this is modelled by `isrWrite`.
* Straight-line register code becomes pure functions `Regs → Regs`.
* Code with externally visible sequencing (bring-up, teardown, the enable
  helpers, conversion arming) additionally produces a `List Action` trace;
  busy-wait loops are parametrised by the number of polls the hardware
  takes to respond.
* The conversion/interrupt interplay (invariant claims) is a small-step
  transition system `Step` over a system state `Sys` combining the
  registers, the task's position inside `Adc::convert`, and the
  `AtomicWaker` slot.
-/

set_option autoImplicit false

namespace AdcV1

/-- The ADC register fields the driver reads or writes
(`T::regs()` in the source).  `chselr` is the raw bit mask of the
channel-selection register. -/
structure Regs where
  isr_adrdy : Bool
  isr_eosmp : Bool
  isr_eoc : Bool
  ier_eocie : Bool
  cr_adcal : Bool
  cr_aden : Bool
  cr_adstart : Bool
  cr_adstp : Bool
  cr_addis : Bool
  cfgr1_dmaen : Bool
  cfgr1_res : Nat
  chselr : Nat
  smpr_smp : Nat
  ccr_vbaten : Bool
  ccr_vrefen : Bool
  ccr_tsen : Bool
  dr : Nat
  deriving Repr, DecidableEq

/-- Writing the ISR register: the status bits are write-1-to-clear, so a
bit stays set only if the written value has a 0 there.  `w_*` are the bits
of the written value. -/
def isrWrite (r : Regs) (w_adrdy w_eosmp w_eoc : Bool) : Regs :=
  { r with
    isr_adrdy := r.isr_adrdy && !w_adrdy
    isr_eosmp := r.isr_eosmp && !w_eosmp
    isr_eoc := r.isr_eoc && !w_eoc }

/-- Model of `T::regs().isr().modify(|reg| { reg.set_eoc(true); reg.set_eosmp(true); })`
(v1.rs lines 152-155): read ISR, set the `eoc` and `eosmp` bits of the read
value, write it back.  Because ISR is write-1-to-clear this clears `eoc`,
`eosmp`, and any other flag that happened to read as 1. -/
def isrClearEocEosmp (r : Regs) : Regs :=
  isrWrite r r.isr_adrdy true true

/-- Model of `T::regs().isr().modify(|reg| reg.set_adrdy(true))` (v1.rs line 80):
clears `adrdy` (and any other flag reading 1, by rc_w1 semantics). -/
def isrClearAdrdy (r : Regs) : Regs :=
  isrWrite r true r.isr_eosmp r.isr_eoc

/-- Model of `T::regs().chselr().write(|reg| reg.set_chselx(channel as usize, true))`
(v1.rs line 177): a `write` starts from the register's reset value (all
zeros) and sets exactly the requested channel bit, replacing the whole
previous contents. -/
def chselrWrite (r : Regs) (channel : Nat) : Regs :=
  { r with chselr := 2 ^ channel }

/-- The register effect of `Adc::read_channel` up to the `convert` call
 (v1.rs lines 175-180). -/
def read_channel_select (r : Regs) (channel : Nat) : Regs :=
  chselrWrite r channel

/-- The `Vbat` internal-channel token (v1.rs lines 33-39). -/
inductive Vbat
  | mk
  deriving Repr, DecidableEq

/-- Source: `impl super::sealed::InternalChannel<ADC> for Vbat { fn channel(&self) -> u8 { 18 } }` -/
def Vbat.channel (_v : Vbat) : Nat := 18

/-- The `Vref` internal-channel token (v1.rs lines 41-47). -/
inductive Vref
  | mk
  deriving Repr, DecidableEq

/-- Source: `impl super::sealed::InternalChannel<ADC> for Vref { fn channel(&self) -> u8 { 17 } }` -/
def Vref.channel (_v : Vref) : Nat := 17

/-- The `Temperature` internal-channel token (v1.rs lines 49-55). -/
inductive Temperature
  | mk
  deriving Repr, DecidableEq

/-- Source: `impl super::sealed::InternalChannel<ADC> for Temperature { fn channel(&self) -> u8 { 16 } }` -/
def Temperature.channel (_t : Temperature) : Nat := 16

/-- Externally visible actions of the driver, in program order.  Register
reads inside busy-wait loops appear once per poll. -/
inductive Action
  | rccEnable
  | rccReset
  | rccDisable
  | delayUs (n : Nat)
  | wrCfgr1Dmaen (b : Bool)
  | wrCrAdcal
  | rdCrAdcal (value : Bool)
  | rdIsrAdrdy (value : Bool)
  | wrIsrAdrdy
  | wrCrAden
  | wrCrAdstp
  | rdCrAdstp (value : Bool)
  | wrCrAddis
  | rdCrAden (value : Bool)
  | irqUnpend
  | irqEnable
  | wrCcrVbaten
  | wrCcrVrefen
  | wrCcrTsen
  | wrIsrEocEosmp
  | wrSmpr
  | wrIerEocie (b : Bool)
  | wrCrAdstart
  | wakerRegister
  | wakerWake
  | rdIsrEoc (value : Bool)
  | rdDr
  | wrChselr (channel : Nat)
  | pinGetChannel
  | pinSetAsAnalog
  deriving Repr, DecidableEq

/-- The `AtomicWaker` slot of `T::state().waker`: `true` when a
resumption callback is registered. -/
def WakerSlot := Bool

/-- Model of `AtomicWaker::wake`: takes the registered callback if any and invokes
it; a wake with no registered callback is lost.  Returns the emptied slot
and whether a task was actually woken. -/
def wakerWakeSlot (w : Bool) : Bool × Bool := (false, w)

/-- Model of `InterruptHandler::on_interrupt` (v1.rs lines 21-31): read `isr.eoc`;
if set, clear `ier.eocie` and wake the waker; otherwise return.
Result: (registers after, waker slot after, whether a task was woken). -/
def on_interrupt (r : Regs) (w : Bool) : Regs × Bool × Bool :=
  if r.isr_eoc then
    ({ r with ier_eocie := false }, (wakerWakeSlot w).1, (wakerWakeSlot w).2)
  else
    (r, w, false)

/-- The action trace of one `on_interrupt` invocation. -/
def on_interrupt_trace (r : Regs) : List Action :=
  if r.isr_eoc then
    [.rdIsrEoc true, .wrIerEocie false, .wakerWake]
  else
    [.rdIsrEoc false]

/-- One execution of the closure passed to `poll_fn` in `Adc::convert`
(v1.rs lines 161-169): register the context's waker in the slot, then
read `isr.eoc`; ready iff it is set.  Result: (waker slot after, ready?). -/
def convert_poll_once (r : Regs) (_w : Bool) : Bool × Bool :=
  let w := true
  if r.isr_eoc then (w, true) else (w, false)

/-- The action trace of one execution of the poll closure. -/
def convert_poll_trace (r : Regs) : List Action :=
  [.wakerRegister, .rdIsrEoc r.isr_eoc]

/-- The arming part of `Adc::convert` before the `poll_fn` suspend point
(v1.rs lines 152-159): clear `eoc`/`eosmp`, write the sample time, enable
the end-of-conversion interrupt, start the conversion. -/
def convert_arm (sample_time : Nat) (r : Regs) : Regs × List Action :=
  let r1 := isrClearEocEosmp r
  let r2 := { r1 with smpr_smp := sample_time }
  let r3 := { r2 with ier_eocie := true }
  let r4 := { r3 with cr_adstart := true }
  (r4, [.wrIsrEocEosmp, .wrSmpr, .wrIerEocie true, .wrCrAdstart])

/-- Model of `Adc::enable_vbat` (v1.rs lines 101-108): set `ccr.vbaten`, return the
`Vbat` token.  No delay call. -/
def enable_vbat (r : Regs) : Regs × List Action × Vbat :=
  ({ r with ccr_vbaten := true }, [.wrCcrVbaten], .mk)

/-- Model of `Adc::enable_vref` (v1.rs lines 110-116): set `ccr.vrefen`, delay
10 µs, return the `Vref` token. -/
def enable_vref (r : Regs) : Regs × List Action × Vref :=
  ({ r with ccr_vrefen := true }, [.wrCcrVrefen, .delayUs 10], .mk)

/-- Model of `Adc::enable_temperature` (v1.rs lines 118-127): set `ccr.tsen`,
delay 10 µs, return the `Temperature` token. -/
def enable_temperature (r : Regs) : Regs × List Action × Temperature :=
  ({ r with ccr_tsen := true }, [.wrCcrTsen, .delayUs 10], .mk)

/-- An external pin capability as `Adc::read` uses it: a numeric channel
identifier plus the externally supplied analog-mode configuration on the
pin's own state (`AdcPin::channel` / `set_as_analog` from the gpio
module). -/
structure Pin (σ : Type) where
  channel : Nat
  set_as_analog : σ → σ

/-- Model of `Adc::read` (v1.rs lines 137-144) up to the conversion suspend point:
fetch the pin's channel number, apply the pin's own analog-mode
configuration to the pin state, then select the channel and arm the
conversion (`read_channel` → `convert`). -/
def read_effect {σ : Type} (sample_time : Nat) (p : Pin σ) (ps : σ) (r : Regs) : σ × Regs :=
  let channel := p.channel
  let ps2 := p.set_as_analog ps
  (ps2, (convert_arm sample_time (read_channel_select r channel)).1)

/-- Trace of the calibration busy-wait `while T::regs().cr().read().adcal() {}`
(v1.rs line 76): the hardware clears `adcal` after `n` polls that still
read it as set. -/
def adcalWaitTrace : Nat → List Action
  | 0 => [.rdCrAdcal false]
  | n + 1 => .rdCrAdcal true :: adcalWaitTrace n

/-- Trace of the enable busy-wait
`while !T::regs().isr().read().adrdy() { cr().modify(set_aden(true)) }`
(v1.rs lines 83-88): each iteration that reads `adrdy` clear re-writes the
`aden` bit (errata ES0233 2.4.3 workaround); the hardware raises `adrdy`
after `n` iterations. -/
def adenWaitTrace : Nat → List Action
  | 0 => [.rdIsrAdrdy true]
  | n + 1 => .rdIsrAdrdy false :: .wrCrAden :: adenWaitTrace n

/-- The action trace of `Adc::new` (v1.rs lines 58-99), parametrised by
how many polls the hardware takes to clear `adcal` and raise `adrdy`, and
by whether `adrdy` was already set before the enable sequence. -/
def new_trace (calPolls rdyPolls : Nat) (adrdy0 : Bool) : List Action :=
  [.rccEnable, .rccReset, .delayUs 1, .wrCfgr1Dmaen false, .wrCrAdcal]
    ++ adcalWaitTrace calPolls
    ++ (.rdIsrAdrdy adrdy0 :: if adrdy0 then [.wrIsrAdrdy] else [])
    ++ [.wrCrAden]
    ++ adenWaitTrace rdyPolls
    ++ [.irqUnpend, .irqEnable]

/-- Trace of the stop busy-wait `while T::regs().cr().read().adstp() {}`
(v1.rs line 187): hardware clears `adstp` after `n` polls. -/
def adstpWaitTrace : Nat → List Action
  | 0 => [.rdCrAdstp false]
  | n + 1 => .rdCrAdstp true :: adstpWaitTrace n

/-- Trace of the disable busy-wait `while T::regs().cr().read().aden() {}`
(v1.rs line 190): hardware clears `aden` after `n` polls. -/
def adenClearWaitTrace : Nat → List Action
  | 0 => [.rdCrAden false]
  | n + 1 => .rdCrAden true :: adenClearWaitTrace n

/-- The action trace of `Drop for Adc` (v1.rs lines 183-194), parametrised
by how many polls the hardware takes to acknowledge the stop and to clear
the enable flag. -/
def drop_trace (stopPolls disPolls : Nat) : List Action :=
  [.wrCrAdstp] ++ adstpWaitTrace stopPolls
    ++ [.wrCrAddis] ++ adenClearWaitTrace disPolls
    ++ [.rccDisable]

end AdcV1

namespace AdcV1

/-- C1: selecting a channel for conversion (the `chselr().write(..)` in
`Adc::read_channel`, reached from both `Adc::read` and
`Adc::read_internal`) replaces the whole channel-selection register:
afterwards bit `j` is set iff `j` is the requested channel, whatever was
selected before. -/
theorem read_channel_select_exclusive (r : Regs) (channel j : Nat) :
    (read_channel_select r channel).chselr = 2 ^ channel ∧
    ((read_channel_select r channel).chselr.testBit j ↔ j = channel) := by
  constructor
  · rfl
  · show (Nat.testBit (2 ^ channel) j) ↔ j = channel
    rw [Nat.testBit_two_pow]
    simp [eq_comm]

/-- C8: the three internal-channel tokens are bound to the fixed channel
numbers 18 (`Vbat`), 17 (`Vref`), 16 (`Temperature`). -/
theorem internal_channel_numbers (v : Vbat) (w : Vref) (t : Temperature) :
    v.channel = 18 ∧ w.channel = 17 ∧ t.channel = 16 := by
  exact ⟨rfl, rfl, rfl⟩

/-- A concrete register state with the end-of-conversion flag set, used to
instantiate conditional theorems. -/
def regsEocSet : Regs :=
  { isr_adrdy := false, isr_eosmp := false, isr_eoc := true, ier_eocie := true
    cr_adcal := false, cr_aden := true, cr_adstart := false, cr_adstp := false
    cr_addis := false, cfgr1_dmaen := false, cfgr1_res := 0, chselr := 0
    smpr_smp := 0, ccr_vbaten := false, ccr_vrefen := false, ccr_tsen := false
    dr := 321 }

/-- C3: `on_interrupt` with the completion flag set clears `ier.eocie` and
then wakes the waiting task (the `eocie` write precedes the wake in the
trace); with the flag clear it changes nothing; in both cases it touches
only the interrupt-enable bit and the wake slot, its trace never reads the
data register, and its behaviour is independent of the data register's
contents. -/
theorem on_interrupt_spec (r : Regs) (w : Bool) :
    (r.isr_eoc = true →
      on_interrupt r w = ({ r with ier_eocie := false }, false, w) ∧
      on_interrupt_trace r = [.rdIsrEoc true, .wrIerEocie false, .wakerWake] ∧
      (on_interrupt_trace r).indexOf (.wrIerEocie false) <
        (on_interrupt_trace r).indexOf .wakerWake) ∧
    (r.isr_eoc = false →
      on_interrupt r w = (r, w, false) ∧
      on_interrupt_trace r = [.rdIsrEoc false]) ∧
    Action.rdDr ∉ on_interrupt_trace r ∧
    (∀ d : Nat,
      on_interrupt { r with dr := d } w =
        ({ (on_interrupt r w).1 with dr := d }, (on_interrupt r w).2)) := by
  refine ⟨fun h => ?_, fun h => ?_, ?_, fun d => ?_⟩
  · have ht : on_interrupt_trace r = [.rdIsrEoc true, .wrIerEocie false, .wakerWake] := by
      simp [on_interrupt_trace, h]
    refine ⟨?_, ht, ?_⟩
    · simp [on_interrupt, wakerWakeSlot, h]
    · rw [ht]
      decide
  · simp [on_interrupt, on_interrupt_trace, wakerWakeSlot, h]
  · cases heoc : r.isr_eoc <;> simp [on_interrupt_trace, heoc]
  · cases heoc : r.isr_eoc <;> simp [on_interrupt, wakerWakeSlot, heoc]

/-- C3 witness: `on_interrupt_spec` at a concrete register state with the
completion flag set and a registered waker. -/
theorem on_interrupt_spec_witness :
    on_interrupt regsEocSet true = ({ regsEocSet with ier_eocie := false }, false, true) ∧
    on_interrupt_trace regsEocSet = [.rdIsrEoc true, .wrIerEocie false, .wakerWake] :=
  ⟨((on_interrupt_spec regsEocSet true).1 rfl).1,
   ((on_interrupt_spec regsEocSet true).1 rfl).2.1⟩

/-- C2: every execution of the poll closure in `Adc::convert` registers
the resumption callback in the wake slot (the slot is occupied afterwards,
whatever it held before), and only after that reads the completion flag
(the register action precedes the flag read in the trace); the poll is
ready exactly when the completion flag is set, and pending exactly when it
is not. -/
theorem convert_poll_once_spec (r : Regs) (w : Bool) :
    (convert_poll_once r w).1 = true ∧
    ((convert_poll_once r w).2 = true ↔ r.isr_eoc = true) ∧
    ((convert_poll_once r w).2 = false ↔ r.isr_eoc = false) ∧
    convert_poll_trace r = [.wakerRegister, .rdIsrEoc r.isr_eoc] ∧
    (convert_poll_trace r).indexOf .wakerRegister <
      (convert_poll_trace r).indexOf (.rdIsrEoc r.isr_eoc) := by
  cases heoc : r.isr_eoc <;>
    refine ⟨?_, ?_, ?_, ?_, ?_⟩ <;>
    first
      | decide
      | simp [convert_poll_once, convert_poll_trace, heoc]

/-- C10: the arming part of `Adc::convert` clears the end-of-conversion
and end-of-sampling flags, and does so strictly before enabling the
completion interrupt and before setting the conversion-start bit: after
arming, `eoc` and `eosmp` are clear regardless of any leftover flags,
while `eocie` and `adstart` are set. -/
theorem convert_arm_spec (sample_time : Nat) (r : Regs) :
    (convert_arm sample_time r).1.isr_eoc = false ∧
    (convert_arm sample_time r).1.isr_eosmp = false ∧
    (convert_arm sample_time r).1.ier_eocie = true ∧
    (convert_arm sample_time r).1.cr_adstart = true ∧
    (convert_arm sample_time r).2 = [.wrIsrEocEosmp, .wrSmpr, .wrIerEocie true, .wrCrAdstart] ∧
    (convert_arm sample_time r).2.indexOf .wrIsrEocEosmp <
      (convert_arm sample_time r).2.indexOf (.wrIerEocie true) ∧
    (convert_arm sample_time r).2.indexOf .wrIsrEocEosmp <
      (convert_arm sample_time r).2.indexOf .wrCrAdstart := by
  refine ⟨?_, ?_, rfl, rfl, rfl, ?_, ?_⟩ <;>
    first
      | (simp only [convert_arm]
         decide)
      | simp [convert_arm, isrClearEocEosmp, isrWrite]

end AdcV1

namespace AdcV1

/-- C7: `enable_vref` and `enable_temperature` each set their power-up bit
in the shared `CCR` register and then issue exactly one blocking delay of
10 µs before returning their token, the delay coming after the bit write;
`enable_vbat` sets its power-up bit and returns its token with no delay
action at all. -/
theorem enable_internal_channels_spec (r : Regs) :
    enable_vref r = ({ r with ccr_vrefen := true }, [.wrCcrVrefen, .delayUs 10], .mk) ∧
    enable_temperature r = ({ r with ccr_tsen := true }, [.wrCcrTsen, .delayUs 10], .mk) ∧
    enable_vbat r = ({ r with ccr_vbaten := true }, [.wrCcrVbaten], .mk) ∧
    (∀ n : Nat, Action.delayUs n ∉ (enable_vbat r).2.1) := by
  refine ⟨rfl, rfl, rfl, fun n => ?_⟩
  simp [enable_vbat]

/-- C7 witness: `enable_internal_channels_spec` at a concrete register
state, extracting that no 10 µs delay action occurs in the vbat trace. -/
theorem enable_internal_channels_spec_witness :
    Action.delayUs 10 ∉ (enable_vbat regsEocSet).2.1 :=
  (enable_internal_channels_spec regsEocSet).2.2.2 10

/-- C9: `Adc::read` obtains from the pin capability only its numeric
channel identifier as far as the ADC registers are concerned — two pins
with the same channel number produce the same register state — and the
analog-mode configuration of the pin is exactly the pin capability's own
`set_as_analog` function, applied unchanged by the driver core. -/
theorem read_pin_frame {σ : Type} (sample_time : Nat) (p : Pin σ) (ps : σ) (r : Regs) :
    (read_effect sample_time p ps r).1 = p.set_as_analog ps ∧
    (read_effect sample_time p ps r).2 =
      (convert_arm sample_time (read_channel_select r p.channel)).1 ∧
    (∀ (p2 : Pin σ) (ps2 : σ), p2.channel = p.channel →
      (read_effect sample_time p2 ps2 r).2 = (read_effect sample_time p ps r).2) := by
  refine ⟨rfl, rfl, fun p2 ps2 h => ?_⟩
  simp [read_effect, h]

/-- C9 witness: two concrete pins sharing channel 5 but with different
pin-state configurations produce the same ADC register state. -/
theorem read_pin_frame_witness :
    (read_effect 3 ⟨5, fun s => s + 7⟩ 0 regsEocSet).1 = 7 ∧
    (read_effect 3 (⟨5, id⟩ : Pin Nat) 1 regsEocSet).2 =
      (read_effect 3 (⟨5, fun s => s + 7⟩ : Pin Nat) 0 regsEocSet).2 :=
  ⟨(read_pin_frame 3 ⟨5, fun s => s + 7⟩ 0 regsEocSet).1,
   (read_pin_frame 3 ⟨5, fun s => s + 7⟩ 0 regsEocSet).2.2 ⟨5, id⟩ 1 rfl⟩

theorem adcalWaitTrace_eq (n : Nat) :
    adcalWaitTrace n = List.replicate n (.rdCrAdcal true) ++ [.rdCrAdcal false] := by
  induction n with
  | zero => rfl
  | succ k ih => simp [adcalWaitTrace, ih, List.replicate_succ]

theorem adenWaitTrace_eq (n : Nat) :
    adenWaitTrace n =
      (List.replicate n [Action.rdIsrAdrdy false, Action.wrCrAden]).flatten
        ++ [.rdIsrAdrdy true] := by
  induction n with
  | zero => rfl
  | succ k ih => simp [adenWaitTrace, ih, List.replicate_succ]

theorem adenWaitTrace_count (n : Nat) :
    (adenWaitTrace n).count Action.wrCrAden = n := by
  induction n with
  | zero => simp [adenWaitTrace, List.count_cons, List.count_nil]
  | succ k ih => simp [adenWaitTrace, List.count_cons, ih]

/-- C5: the bring-up trace of `Adc::new` is, in order: clock enable and
reset; a fixed 1 µs settling delay; DMA disable; calibration start
followed by the calibration busy-wait; a read of the ready flag with a
clearing write exactly when it was already set; the enable-bit write
followed by the ready busy-wait, in which every one of the `rdyPolls`
iterations re-writes the enable bit (so the enable bit is written
`rdyPolls + 1` times in total); and finally interrupt unpend and enable. -/
theorem new_trace_spec (calPolls rdyPolls : Nat) (adrdy0 : Bool) :
    new_trace calPolls rdyPolls adrdy0 =
      [.rccEnable, .rccReset, .delayUs 1, .wrCfgr1Dmaen false, .wrCrAdcal]
        ++ (List.replicate calPolls (.rdCrAdcal true) ++ [.rdCrAdcal false])
        ++ (.rdIsrAdrdy adrdy0 :: if adrdy0 then [.wrIsrAdrdy] else [])
        ++ [.wrCrAden]
        ++ ((List.replicate rdyPolls [Action.rdIsrAdrdy false, Action.wrCrAden]).flatten
              ++ [.rdIsrAdrdy true])
        ++ [.irqUnpend, .irqEnable] ∧
    (new_trace calPolls rdyPolls adrdy0).count Action.wrCrAden = rdyPolls + 1 := by
  constructor
  · simp [new_trace, adcalWaitTrace_eq, adenWaitTrace_eq]
  · cases adrdy0 <;>
      simp [new_trace, adcalWaitTrace_eq, adenWaitTrace_count,
        List.count_append, List.count_cons, List.count_replicate]

theorem adstpWaitTrace_eq (n : Nat) :
    adstpWaitTrace n = List.replicate n (.rdCrAdstp true) ++ [.rdCrAdstp false] := by
  induction n with
  | zero => rfl
  | succ k ih => simp [adstpWaitTrace, ih, List.replicate_succ]

theorem adenClearWaitTrace_eq (n : Nat) :
    adenClearWaitTrace n = List.replicate n (.rdCrAden true) ++ [.rdCrAden false] := by
  induction n with
  | zero => rfl
  | succ k ih => simp [adenClearWaitTrace, ih, List.replicate_succ]

/-- C6: the teardown trace of `Drop for Adc` is, in order: the
stop-request write followed by the stop busy-wait, the disable-request
write followed by the busy-wait for the enable flag to clear, and the
clock-disable request; the clock-disable request is the very last action
and is immediately preceded by the read observing the enable flag clear. -/
theorem drop_trace_spec (stopPolls disPolls : Nat) :
    drop_trace stopPolls disPolls =
      [.wrCrAdstp]
        ++ (List.replicate stopPolls (.rdCrAdstp true) ++ [.rdCrAdstp false])
        ++ [.wrCrAddis]
        ++ (List.replicate disPolls (.rdCrAden true) ++ [.rdCrAden false])
        ++ [.rccDisable] ∧
    (drop_trace stopPolls disPolls).getLast? = some .rccDisable ∧
    (∃ pre : List Action,
      drop_trace stopPolls disPolls = pre ++ [.rdCrAden false, .rccDisable]) := by
  have h3 : drop_trace stopPolls disPolls =
      ([.wrCrAdstp] ++ adstpWaitTrace stopPolls ++ [.wrCrAddis]
        ++ List.replicate disPolls (.rdCrAden true))
        ++ [.rdCrAden false, .rccDisable] := by
    simp [drop_trace, adenClearWaitTrace_eq]
  refine ⟨?_, ?_, ⟨_, h3⟩⟩
  · simp [drop_trace, adstpWaitTrace_eq, adenClearWaitTrace_eq]
  · rw [h3]
    simp [List.getLast?_append, List.getLast?_cons]

end AdcV1

namespace AdcV1

/-- Position of the task inside `Adc::convert` (v1.rs lines 151-173),
naming the next statement it will execute.  `idle` is outside any
conversion; `suspended` is parked inside the `poll_fn` await after a
`Pending` poll. -/
inductive Pc
  | idle
  | setSmp
  | setIer
  | setStart
  | pollReg
  | pollCheck
  | suspended
  | readDr
  deriving Repr, DecidableEq

/-- Whole-system state for the conversion/interrupt interplay: the
registers, the task position, the `AtomicWaker` slot, whether the
suspended task has been made runnable by a wake, and a history flag
recording whether the completion interrupt has already run for the
current conversion.  `sample_time` is the driver's stored configuration. -/
structure Sys where
  regs : Regs
  pc : Pc
  waker : Bool
  runnable : Bool
  irqHandled : Bool
  sample_time : Nat
  deriving Repr, DecidableEq

/-- The interrupt line is requesting service: completion flag set and the
completion interrupt enabled. -/
def irqReq (s : Sys) : Bool := s.regs.isr_eoc && s.regs.ier_eocie

/-- Small-step semantics of one conversion round interleaved with the
hardware and the interrupt handler.  Task steps carry the guard
`irqReq s = false`: the handler runs at interrupt priority, so the task
cannot advance while the enabled interrupt is pending.  `hwComplete` is
the hardware finishing a started conversion (single-shot mode: it raises
`eoc`, deposits the sample, and clears `adstart`); `readData` models that
reading `DR` clears `eoc`.  `irqFire` runs `on_interrupt`. -/
inductive Step : Sys → Sys → Prop
  | startClear (s : Sys) (h1 : s.pc = .idle) (h2 : irqReq s = false) :
      Step s { s with regs := isrClearEocEosmp s.regs, pc := .setSmp, irqHandled := false }
  | smp (s : Sys) (h1 : s.pc = .setSmp) (h2 : irqReq s = false) :
      Step s { s with regs := { s.regs with smpr_smp := s.sample_time }, pc := .setIer }
  | ier (s : Sys) (h1 : s.pc = .setIer) (h2 : irqReq s = false) :
      Step s { s with regs := { s.regs with ier_eocie := true }, pc := .setStart }
  | start (s : Sys) (h1 : s.pc = .setStart) (h2 : irqReq s = false) :
      Step s { s with regs := { s.regs with cr_adstart := true }, pc := .pollReg }
  | pollRegister (s : Sys) (h1 : s.pc = .pollReg) (h2 : irqReq s = false) :
      Step s { s with waker := true, pc := .pollCheck }
  | pollReady (s : Sys) (h1 : s.pc = .pollCheck) (h2 : irqReq s = false)
      (h3 : s.regs.isr_eoc = true) :
      Step s { s with pc := .readDr }
  | pollPending (s : Sys) (h1 : s.pc = .pollCheck) (h2 : irqReq s = false)
      (h3 : s.regs.isr_eoc = false) :
      Step s { s with pc := .suspended }
  | wakeResume (s : Sys) (h1 : s.pc = .suspended) (h2 : irqReq s = false)
      (h3 : s.runnable = true) :
      Step s { s with runnable := false, pc := .pollReg }
  | readData (s : Sys) (h1 : s.pc = .readDr) (h2 : irqReq s = false) :
      Step s { s with regs := { s.regs with isr_eoc := false }, pc := .idle }
  | hwComplete (s : Sys) (d : Nat) (h1 : s.regs.cr_adstart = true) :
      Step s { s with regs := { s.regs with isr_eoc := true, cr_adstart := false, dr := d } }
  | irqFire (s : Sys) (h1 : irqReq s = true) :
      Step s { s with
        regs := (on_interrupt s.regs s.waker).1
        waker := (on_interrupt s.regs s.waker).2.1
        runnable := s.runnable || (on_interrupt s.regs s.waker).2.2
        irqHandled := true }

/-- The driver instance right after `Adc::new`: enabled (`aden`, `adrdy`),
no conversion running, completion interrupt disabled, empty wake slot. -/
def initSys : Sys :=
  { regs := { isr_adrdy := true, isr_eosmp := false, isr_eoc := false, ier_eocie := false
              cr_adcal := false, cr_aden := true, cr_adstart := false, cr_adstp := false
              cr_addis := false, cfgr1_dmaen := false, cfgr1_res := 0, chselr := 0
              smpr_smp := 0, ccr_vbaten := false, ccr_vrefen := false, ccr_tsen := false
              dr := 0 }
    pc := .idle, waker := false, runnable := false, irqHandled := true, sample_time := 1 }

/-- States of the driver instance reachable from the post-construction
state. -/
def Reachable (s : Sys) : Prop := Relation.ReflTransGen Step initSys s

/-- The task positions between the `ier.eocie := true` write and the point
where the completion interrupt (or the ready poll) has taken over. -/
def armed : Pc → Bool
  | .setStart => true
  | .pollReg => true
  | .pollCheck => true
  | .suspended => true
  | _ => false

/-- Inductive invariant characterising the completion-interrupt enable
bit: it is set exactly when the task is past the `eocie := true` write of
the current conversion and the completion interrupt has not yet run. -/
def SysInv (s : Sys) : Prop :=
  s.regs.ier_eocie = (armed s.pc && !s.irqHandled) ∧
  ((s.pc = Pc.setSmp ∨ s.pc = Pc.setIer) → s.irqHandled = false)

theorem sysInv_step (a b : Sys) (hab : Step a b) (ha : SysInv a) : SysInv b := by
  cases hab with
  | startClear h1 h2 => simp_all [SysInv, armed, isrClearEocEosmp, isrWrite]
  | smp h1 h2 => simp_all [SysInv, armed]
  | ier h1 h2 => simp_all [SysInv, armed]
  | start h1 h2 => simp_all [SysInv, armed]
  | pollRegister h1 h2 => simp_all [SysInv, armed]
  | pollReady h1 h2 h3 => simp_all [SysInv, armed, irqReq]
  | pollPending h1 h2 h3 => simp_all [SysInv, armed]
  | wakeResume h1 h2 h3 => simp_all [SysInv, armed]
  | readData h1 h2 => simp_all [SysInv, armed]
  | hwComplete d h1 => simp_all [SysInv, armed]
  | irqFire h1 =>
    have heoc : a.regs.isr_eoc = true ∧ a.regs.ier_eocie = true := by
      simpa [irqReq, Bool.and_eq_true] using h1
    constructor
    · simp [on_interrupt, wakerWakeSlot, heoc.1]
    · intro hpc
      have hpcs : a.pc = Pc.setSmp ∨ a.pc = Pc.setIer := by simpa using hpc
      have hfalse : a.regs.ier_eocie = false := by
        rcases hpcs with hp | hp <;> rw [ha.1, hp] <;> rfl
      rw [hfalse] at heoc
      simp at heoc

theorem sysInv_reachable (s : Sys) (h : Reachable s) : SysInv s := by
  induction h with
  | refl =>
    constructor
    · rfl
    · intro hpc
      simp [initSys] at hpc
  | tail _hab hbc ih => exact sysInv_step _ _ hbc ih

/-- A reachable state in which a conversion is still outstanding (the
task is suspended inside `Adc::convert`, the result not yet read) but the
completion interrupt has already run and cleared `ier.eocie`. -/
def cexSys : Sys :=
  { regs := { isr_adrdy := false, isr_eosmp := false, isr_eoc := true, ier_eocie := false
              cr_adcal := false, cr_aden := true, cr_adstart := false, cr_adstp := false
              cr_addis := false, cfgr1_dmaen := false, cfgr1_res := 0, chselr := 0
              smpr_smp := 1, ccr_vbaten := false, ccr_vrefen := false, ccr_tsen := false
              dr := 777 }
    pc := .suspended, waker := false, runnable := true, irqHandled := true, sample_time := 1 }

theorem cexSys_reachable : Reachable cexSys := by
  have r0 : Relation.ReflTransGen Step initSys initSys := Relation.ReflTransGen.refl
  have r1 := r0.tail (Step.startClear initSys rfl rfl)
  have r2 := r1.tail (Step.smp _ rfl rfl)
  have r3 := r2.tail (Step.ier _ rfl rfl)
  have r4 := r3.tail (Step.start _ rfl rfl)
  have r5 := r4.tail (Step.pollRegister _ rfl rfl)
  have r6 := r5.tail (Step.pollPending _ rfl rfl rfl)
  have r7 := r6.tail (Step.hwComplete _ 777 rfl)
  have r8 := r7.tail (Step.irqFire _ rfl)
  exact r8

/-- C4 counterexample: `cexSys` is reachable (start a conversion, suspend,
hardware completes, the interrupt handler runs before the task resumes);
there a conversion is outstanding — the task is mid-`convert`, suspended,
result unread — yet the completion-interrupt enable bit is already clear,
refuting "the bit is set whenever a conversion is outstanding". -/
theorem eocie_iff_outstanding_counterexample :
    Reachable cexSys ∧ cexSys.pc ≠ Pc.idle ∧ cexSys.regs.ier_eocie = false :=
  ⟨cexSys_reachable, by decide, rfl⟩

/-- C4 amended: at every reachable state of the driver instance, the
completion-interrupt enable bit is set only while a conversion is
outstanding (the task is inside `Adc::convert`); precisely, it is set iff
the task is past the current conversion's interrupt-enable write and the
completion interrupt has not yet run for it. -/
theorem eocie_set_only_while_outstanding (s : Sys) (h : Reachable s) :
    (s.regs.ier_eocie = true → s.pc ≠ Pc.idle) ∧
    (s.regs.ier_eocie = true ↔ (armed s.pc = true ∧ s.irqHandled = false)) := by
  have hi := sysInv_reachable s h
  constructor
  · intro he hpc
    rw [hi.1, hpc] at he
    simp [armed] at he
  · rw [hi.1]
    simp [Bool.and_eq_true]

/-- C4 amended witness: the amended statement instantiated at the
post-construction state. -/
theorem eocie_set_only_while_outstanding_witness :
    (initSys.regs.ier_eocie = true → initSys.pc ≠ Pc.idle) ∧
    (initSys.regs.ier_eocie = true ↔
      (armed initSys.pc = true ∧ initSys.irqHandled = false)) :=
  eocie_set_only_while_outstanding initSys Relation.ReflTransGen.refl

end AdcV1
